import Mathlib

/-!
Verification of the quota-aware credential rotation and batch-dispatch
pipeline of `ai_csv_transformer.py`.

The Python code is shallowly embedded: dictionaries become association
lists over `String`, `datetime` values become a record of calendar
fields compared through their microsecond count, the JSON usage file
becomes an inductive `Json` value whose timestamp leaves carry the
ISO-8601 rendering produced by `datetime.isoformat`, and the
collaborator services (generation call, sink file) are modelled as
explicit parameters describing their outcome.
-/

/-! ### Association-list model of Python dict / defaultdict -/

/-- Lookup in a Python dict (insertion-ordered association list). -/
def dlookup {α : Type} (d : List (String × α)) (k : String) : Option α :=
  (d.find? (fun p => p.1 == k)).map Prod.snd

/-- Lookup with a default value, the read behaviour of `defaultdict`. -/
def dgetD {α : Type} (d : List (String × α)) (k : String) (v : α) : α :=
  (dlookup d k).getD v

/-- `d[k] = v` on a Python dict: update in place if present (keeping
insertion order), otherwise append at the end. -/
def dinsert {α : Type} : List (String × α) → String → α → List (String × α)
  | [], k, v => [(k, v)]
  | (k1, v1) :: rest, k, v =>
    if k1 == k then (k, v) :: rest else (k1, v1) :: dinsert rest k v

/-- Materialising read of `defaultdict`: `d[k]` returns the stored value
or inserts and returns the default. Returns the value and the updated dict. -/
def dmatGet {α : Type} (d : List (String × α)) (k : String) (v : α) :
    α × List (String × α) :=
  match dlookup d k with
  | some w => (w, d)
  | none => (v, d ++ [(k, v)])

/-! ### datetime model

A naive `datetime.datetime` is a record of calendar fields.  Arithmetic
(`now - then > timedelta(hours=24)`) goes through the count of
microseconds since the proleptic-Gregorian epoch, exactly as CPython
compares datetimes via `toordinal` plus the time fields. -/

structure PyDateTime where
  year : Nat
  month : Nat
  day : Nat
  hour : Nat
  minute : Nat
  second : Nat
  micro : Nat
deriving DecidableEq

def isLeap (y : Nat) : Bool :=
  y % 4 == 0 && (y % 100 != 0 || y % 400 == 0)

def daysInMonth (y m : Nat) : Nat :=
  if m = 2 then (if isLeap y then 29 else 28)
  else if m = 4 ∨ m = 6 ∨ m = 9 ∨ m = 11 then 30
  else 31

def daysBeforeMonth (y m : Nat) : Nat :=
  ((List.range (m - 1)).map (fun i => daysInMonth y (i + 1))).sum

/-- `datetime.date.toordinal`: day number since 0001-01-01 (that day is 1). -/
def toOrdinal (d : PyDateTime) : Nat :=
  (d.year - 1) * 365 + (d.year - 1) / 4 - (d.year - 1) / 100 + (d.year - 1) / 400
    + daysBeforeMonth d.year d.month + d.day

def toMicros (d : PyDateTime) : Nat :=
  ((((toOrdinal d * 24 + d.hour) * 60 + d.minute) * 60 + d.second) * 1000000) + d.micro

/-- `a - b` on datetimes, as a signed count of microseconds. -/
def dtSub (a b : PyDateTime) : Int :=
  (toMicros a : Int) - (toMicros b : Int)

/-- `timedelta(hours=24)` in microseconds. -/
def h24micros : Int := 86400000000

/-- The field ranges a real `datetime.datetime` value always satisfies. -/
def validDT (d : PyDateTime) : Prop :=
  1 ≤ d.year ∧ d.year ≤ 9999 ∧ 1 ≤ d.month ∧ d.month ≤ 12 ∧
  1 ≤ d.day ∧ d.day ≤ daysInMonth d.year d.month ∧
  d.hour ≤ 23 ∧ d.minute ≤ 59 ∧ d.second ≤ 59 ∧ d.micro ≤ 999999

instance (d : PyDateTime) : Decidable (validDT d) := by
  unfold validDT; infer_instance

/-! ### ISO-8601 rendering and parsing of datetimes

`datetime.isoformat()` prints `YYYY-MM-DDTHH:MM:SS` and appends
`.ffffff` exactly when the microsecond field is non-zero;
`datetime.fromisoformat` parses that format back (we model the subset
of its grammar that `isoformat` can produce, including the range
validation the `datetime` constructor performs). -/

def digitChar (n : Nat) : Char :=
  match n with
  | 0 => '0' | 1 => '1' | 2 => '2' | 3 => '3' | 4 => '4'
  | 5 => '5' | 6 => '6' | 7 => '7' | 8 => '8' | _ => '9'

def pad2 (n : Nat) : List Char := [digitChar (n / 10), digitChar (n % 10)]

def pad4 (n : Nat) : List Char :=
  [digitChar (n / 1000), digitChar (n / 100 % 10), digitChar (n / 10 % 10), digitChar (n % 10)]

def pad6 (n : Nat) : List Char :=
  [digitChar (n / 100000), digitChar (n / 10000 % 10), digitChar (n / 1000 % 10),
   digitChar (n / 100 % 10), digitChar (n / 10 % 10), digitChar (n % 10)]

def isoChars (d : PyDateTime) : List Char :=
  pad4 d.year ++ '-' :: (pad2 d.month ++ '-' :: (pad2 d.day ++ 'T' ::
    (pad2 d.hour ++ ':' :: (pad2 d.minute ++ ':' ::
      (pad2 d.second ++ (if d.micro = 0 then [] else '.' :: pad6 d.micro))))))

def isoformat (d : PyDateTime) : String := ⟨isoChars d⟩

def readDigit (c : Char) : Option Nat :=
  if 48 ≤ c.toNat ∧ c.toNat ≤ 57 then some (c.toNat - 48) else none

def p2 : List Char → Option (Nat × List Char)
  | a :: b :: rest =>
    match readDigit a, readDigit b with
    | some x, some y => some (10 * x + y, rest)
    | _, _ => none
  | _ => none

def p4 : List Char → Option (Nat × List Char)
  | a :: b :: c :: d :: rest =>
    match readDigit a, readDigit b, readDigit c, readDigit d with
    | some x, some y, some z, some w => some (1000 * x + 100 * y + 10 * z + w, rest)
    | _, _, _, _ => none
  | _ => none

def p6 : List Char → Option (Nat × List Char)
  | a :: b :: c :: d :: e :: f :: rest =>
    match readDigit a, readDigit b, readDigit c, readDigit d, readDigit e, readDigit f with
    | some x, some y, some z, some w, some u, some t =>
      some (100000 * x + 10000 * y + 1000 * z + 100 * w + 10 * u + t, rest)
    | _, _, _, _, _, _ => none
  | _ => none

def pLit (c : Char) : List Char → Option (List Char)
  | d :: rest => if d = c then some rest else none
  | [] => none

def pMicro : List Char → Option (Nat × List Char)
  | [] => some (0, [])
  | c :: rest => if c = '.' then p6 rest else none

def fromChars (cs : List Char) : Option PyDateTime :=
  match p4 cs with
  | none => none
  | some (y, cs) =>
    match pLit '-' cs with
    | none => none
    | some cs =>
      match p2 cs with
      | none => none
      | some (mo, cs) =>
        match pLit '-' cs with
        | none => none
        | some cs =>
          match p2 cs with
          | none => none
          | some (dy, cs) =>
            match pLit 'T' cs with
            | none => none
            | some cs =>
              match p2 cs with
              | none => none
              | some (h, cs) =>
                match pLit ':' cs with
                | none => none
                | some cs =>
                  match p2 cs with
                  | none => none
                  | some (mi, cs) =>
                    match pLit ':' cs with
                    | none => none
                    | some cs =>
                      match p2 cs with
                      | none => none
                      | some (sec, cs) =>
                        match pMicro cs with
                        | none => none
                        | some (u, cs) =>
                          if cs = [] ∧ 1 ≤ y ∧ y ≤ 9999 ∧ 1 ≤ mo ∧ mo ≤ 12 ∧
                              1 ≤ dy ∧ dy ≤ daysInMonth y mo ∧ h ≤ 23 ∧
                              mi ≤ 59 ∧ sec ≤ 59 ∧ u ≤ 999999 then
                            some ⟨y, mo, dy, h, mi, sec, u⟩
                          else none

def fromisoformat (s : String) : Option PyDateTime := fromChars s.data

/-! ### Python string primitives

`str.split(sep)`, `str.replace(old, new)` (which equals
`new.join(s.split(old))` for non-empty `old`), `str.strip()`, the `in`
substring test and `str.lower()`, modelled over `List Char` with a fuel
argument bounding the left-to-right scan (the fuel is always the string
length, which suffices since each step consumes at least one character). -/

def dropPrefixQ : List Char → List Char → Option (List Char)
  | [], rest => some rest
  | _ :: _, [] => none
  | a :: as0, b :: bs => if a = b then dropPrefixQ as0 bs else none

def splitGo (sep : List Char) : Nat → List Char → List Char → List (List Char)
  | _, [], acc => [acc.reverse]
  | 0, cs, acc => [acc.reverse ++ cs]
  | fuel + 1, c :: cs, acc =>
    match dropPrefixQ sep (c :: cs) with
    | some rest => acc.reverse :: splitGo sep fuel rest []
    | none => splitGo sep fuel cs (c :: acc)

/-- `s.split(sep)` for a non-empty literal separator. -/
def pySplit (s sep : String) : List String :=
  (splitGo sep.data s.data.length s.data []).map (fun l => String.mk l)

/-- `s.replace(old, new)` for a non-empty `old`. -/
def pyReplace (s old new : String) : String :=
  String.mk (List.intercalate new.data (splitGo old.data s.data.length s.data []))

def isPySpace (c : Char) : Bool :=
  c == ' ' || c == '\t' || c == '\n' || c == '\r' || c == '\x0b' || c == '\x0c'

/-- `s.strip()`. -/
def pyStrip (s : String) : String :=
  String.mk (((s.data.dropWhile isPySpace).reverse.dropWhile isPySpace).reverse)

def startsWithL : List Char → List Char → Bool
  | [], _ => true
  | _ :: _, [] => false
  | a :: as0, b :: bs => a == b && startsWithL as0 bs

def containsL (needle : List Char) : List Char → Bool
  | [] => startsWithL needle []
  | c :: cs => startsWithL needle (c :: cs) || containsL needle cs

/-- `needle in hay` on Python strings. -/
def pyIn (needle hay : String) : Bool := containsL needle.data hay.data

/-- `s.lower()` (ASCII case folding, all that the quota check needs). -/
def pyLower (s : String) : String := String.mk (s.data.map Char.toLower)

/-! ### The persisted usage ledger (`key_usage.json`)

`json.dump`/`json.load` round-trip Python dicts of strings and ints
exactly, so the file is modelled as the JSON document tree itself; the
only text-level encoding the source performs on values is
`datetime.isoformat` / `datetime.fromisoformat`, which is modelled in
full above. -/

inductive Json where
  | num : Nat → Json
  | str : String → Json
  | obj : List (String × Json) → Json

/-- Reading `defaultdict(int, data['usage'])`: the stored usage values
(ints in any file the program itself wrote). -/
def decodeNums : List (String × Json) → Option (List (String × Nat))
  | [] => some []
  | (k, Json.num n) :: rest => (decodeNums rest).map (fun l => (k, n) :: l)
  | _ => none

/-- Reading `{k: datetime.fromisoformat(v) ...}` from `data['reset_times']`. -/
def decodeTimes : List (String × Json) → Option (List (String × PyDateTime))
  | [] => some []
  | (k, Json.str s) :: rest =>
    match fromisoformat s, decodeTimes rest with
    | some t, some l => some ((k, t) :: l)
    | _, _ => none
  | _ => none

/-- `KeyManager.save_usage_state`: the JSON document written to the usage file. -/
def save_usage_state (usage : List (String × Nat)) (resets : List (String × PyDateTime)) : Json :=
  Json.obj [("usage", Json.obj (usage.map (fun p => (p.1, Json.num p.2)))),
            ("reset_times", Json.obj (resets.map (fun p => (p.1, Json.str (isoformat p.2)))))]

/-- `KeyManager.load_usage_state`: `none` models a missing file.  Any
failure is caught and leaves the state as it was at that point —
`self.key_usage` is assigned before `reset_times` is decoded, so a
failure inside the `reset_times` comprehension keeps the new usage but
the old reset times, exactly as in the source. -/
def load_usage_state (usage : List (String × Nat)) (resets : List (String × PyDateTime)) :
    Option Json → List (String × Nat) × List (String × PyDateTime)
  | none => (usage, resets)
  | some (Json.obj fields) =>
    match dlookup fields "usage" with
    | some (Json.obj us) =>
      match decodeNums us with
      | none => (usage, resets)
      | some u =>
        match dlookup fields "reset_times" with
        | some (Json.obj ts) =>
          match decodeTimes ts with
          | none => (u, resets)
          | some r => (u, r)
        | _ => (u, resets)
    | _ => (usage, resets)
  | some _ => (usage, resets)

/-- The usage entry recorded for credential `k` in a saved ledger document. -/
def savedUsage (j : Json) (k : String) : Option Json :=
  match j with
  | Json.obj fields =>
    match dlookup fields "usage" with
    | some (Json.obj us) => dlookup us k
    | _ => none
  | _ => none

/-- A sample timestamp (2024-01-01T00:00:00). -/
def dtJan1 : PyDateTime := ⟨2024, 1, 1, 0, 0, 0, 0⟩

/-- A sample timestamp 48 hours later (2024-01-03T00:00:00). -/
def dtJan3 : PyDateTime := ⟨2024, 1, 3, 0, 0, 0, 0⟩

/-! ### The credential rotator (`KeyManager`) -/

def QUOTA : Nat := 1450

structure KeyManager where
  api_keys : List String
  key_usage : List (String × Nat)
  last_reset : List (String × PyDateTime)
  current_key_index : Nat
deriving DecidableEq

/-- `KeyManager.__init__`: split the configured credential string on
commas (an unset variable gives `''`, which splits to `['']`) and
restore the ledger from the usage file. -/
def KeyManager.init (envKeys : String) (stored : Option Json) : KeyManager :=
  let p := load_usage_state [] [] stored
  { api_keys := pySplit envKeys ","
    key_usage := p.1
    last_reset := p.2
    current_key_index := 0 }

structure AcqRes where
  result : Option String
  usage : List (String × Nat)
  resets : List (String × PyDateTime)
  index : Nat
deriving DecidableEq

/-- The lazy 24-hour window check performed on the credential under scan
(`get_next_available_key` lines 63-68): reading `last_reset[key]`
materialises the defaultdict entry with `now` as default, and a window
older than 24 hours zeroes the usage and advances the window start. -/
def resetPhase (usage : List (String × Nat)) (resets : List (String × PyDateTime))
    (key : String) (now : PyDateTime) :
    List (String × Nat) × List (String × PyDateTime) :=
  let lastP := dmatGet resets key now
  if dtSub now lastP.1 > h24micros then (dinsert usage key 0, dinsert lastP.2 key now)
  else (usage, lastP.2)

/-- The `while attempts < len(self.api_keys)` scan of
`get_next_available_key`, with the remaining attempt budget as fuel. -/
def acquireGo (keys : List String) (now : PyDateTime) :
    Nat → List (String × Nat) → List (String × PyDateTime) → Nat → AcqRes
  | 0, usage, resets, idx => ⟨none, usage, resets, idx⟩
  | fuel + 1, usage, resets, idx =>
    let key := keys.getD idx ""
    let st1 := resetPhase usage resets key now
    let useP := dmatGet st1.1 key 0
    if useP.1 < QUOTA then
      ⟨some key, dinsert useP.2 key (useP.1 + 1), st1.2, idx⟩
    else
      acquireGo keys now fuel useP.2 st1.2 ((idx + 1) % keys.length)

/-- `KeyManager.get_next_available_key`, taking the wall-clock time of
the call as a parameter. -/
def get_next_available_key (st : KeyManager) (now : PyDateTime) : Option String × KeyManager :=
  let r := acquireGo st.api_keys now st.api_keys.length st.key_usage st.last_reset
    st.current_key_index
  (r.result, { st with key_usage := r.usage, last_reset := r.resets, current_key_index := r.index })

/-- The quota-error branch of `generate_personalized_email`
(`key_manager.key_usage[api_key] = 1500` followed by a persist). -/
def markExhausted (st : KeyManager) (key : String) : KeyManager :=
  { st with key_usage := dinsert st.key_usage key 1500 }

/-- A sequence of `acquire` calls, call `i` made at time `nows i`. -/
def iterAcquire (nows : Nat → PyDateTime) : Nat → KeyManager → KeyManager
  | 0, st => st
  | m + 1, st => (get_next_available_key (iterAcquire nows m st) (nows m)).2

/-! ### The Generation Call and the retry controller
(`generate_personalized_email`) -/

structure GenRes where
  email : String
  name : String
  personalized_email : String
deriving DecidableEq

/-- Response handling of one successful `generate_content` call
(lines 124-132): strip code-fence markers, strip whitespace, split on
the literal `===` and read the first three fields; accessing a missing
`fields[1]`/`fields[2]` raises `IndexError`, which the surrounding
handler turns into a dropped record (`none`). -/
def strippedFields (response : String) : List String :=
  pySplit (pyStrip (pyReplace (pyReplace (pyReplace response "```text" "") "```json" "")
    "```" "")) "==="

def parseResponse (response : String) : Option GenRes :=
  match strippedFields response with
  | f0 :: f1 :: f2 :: _ => some ⟨pyStrip f0, pyStrip f1, pyStrip f2⟩
  | _ => none

/-- `"429" in error_msg or "quota" in error_msg.lower()`. -/
def isQuotaMsg (msg : String) : Bool := pyIn "429" msg || pyIn "quota" (pyLower msg)

/-- Behaviour of one outbound `generate_content` call: a response text,
or a raised error with its message. -/
inductive CallOutcome where
  | ok : String → CallOutcome
  | err : String → CallOutcome

def max_retries : Nat := 3

/-- The `for attempt in range(max_retries)` loop of
`generate_personalized_email`; `oracle attempt` is the external
service's behaviour on that attempt and `nows attempt` the wall-clock
time of its credential acquisition.  An empty-string credential is
falsy in Python, hence the `key = ""` test mirrors `if not api_key`. -/
def genGo (oracle : Nat → CallOutcome) (nows : Nat → PyDateTime) :
    Nat → Nat → KeyManager → Option GenRes × KeyManager
  | 0, _, st => (none, st)
  | fuel + 1, attempt, st =>
    match get_next_available_key st (nows attempt) with
    | (none, st1) => (none, st1)
    | (some key, st1) =>
      if key = "" then (none, st1)
      else
        match oracle attempt with
        | CallOutcome.ok resp =>
          match parseResponse resp with
          | some r => (some r, st1)
          | none => (none, st1)
        | CallOutcome.err msg =>
          if isQuotaMsg msg then
            let st2 := markExhausted st1 key
            if attempt < max_retries - 1 then genGo oracle nows fuel (attempt + 1) st2
            else (none, st2)
          else (none, st1)

def generate_personalized_email (oracle : Nat → CallOutcome) (nows : Nat → PyDateTime)
    (st : KeyManager) : Option GenRes × KeyManager :=
  genGo oracle nows max_retries 0 st

/-! ### The batch dispatcher (`process_batch` / `process_contacts`)
and the sink (`save_results_async`) -/

abbrev Row := List (String × String)

/-- `process_batch`: records of a chunk processed in order, failures
skipped; the global record counter `j` indexes the per-record oracle. -/
def process_batch (oracle : Nat → Nat → CallOutcome) (nows : Nat → Nat → PyDateTime) :
    List Row → Nat → KeyManager → List GenRes × KeyManager × Nat
  | [], j, km => ([], km, j)
  | _row :: rest, j, km =>
    let p := generate_personalized_email (oracle j) (nows j) km
    let q := process_batch oracle nows rest (j + 1) p.2
    match p.1 with
    | some r => (r :: q.1, q.2)
    | none => q

/-- `str(...).replace('"', '""')` on the characters of a field. -/
def csvEsc : List Char → List Char
  | [] => []
  | c :: cs => if c = '"' then '"' :: '"' :: csvEsc cs else c :: csvEsc cs

/-- `"\"{0}\"".format(field.replace('"', '""'))`. -/
def csvField (s : String) : String := String.mk ('"' :: (csvEsc s.data ++ ['"']))

/-- One output row: the three quoted fields joined with `','` plus `'\n'`. -/
def csvLine (r : GenRes) : String :=
  csvField r.email ++ "," ++ csvField r.name ++ "," ++ csvField r.personalized_email ++ "\n"

def header_line : String := "email,name,personalized_email\n"

/-- `save_results_async`: the output file is its text content; a header
is written first when the file is missing or empty, then one line per
result is appended. -/
def save_results_async (results : List GenRes) (file : String) : String :=
  let f1 := if file = "" then file ++ header_line else file
  results.foldl (fun f r => f ++ csvLine r) f1

/-- `contacts[i:i + batch_size]` slices for `i in range(0, total, batch_size)`. -/
def chunksGo {α : Type} (bs : Nat) : Nat → List α → List (List α)
  | _, [] => []
  | 0, l => [l]
  | fuel + 1, c :: cs => List.take bs (c :: cs) :: chunksGo bs fuel (List.drop bs (c :: cs))

def pychunks {α : Type} (bs : Nat) (l : List α) : List (List α) := chunksGo bs l.length l

structure BatchSt where
  processed : Nat
  successful : Nat
  file : String
  sinkCalls : Nat
  km : KeyManager
  recIdx : Nat
deriving DecidableEq

/-- The per-chunk loop of `process_contacts`.  `sinkFail i` says whether
the `i`-th write to the output file raises; the source has no handler
around `save_results_async`, so such an error propagates out as
`Except.error`. -/
def runChunks (oracle : Nat → Nat → CallOutcome) (nows : Nat → Nat → PyDateTime)
    (sinkFail : Nat → Bool) : List (List Row) → BatchSt → Except String BatchSt
  | [], s => Except.ok s
  | chunk :: rest, s =>
    let p := process_batch oracle nows chunk s.recIdx s.km
    let s1 : BatchSt :=
      { s with processed := s.processed + chunk.length, km := p.2.1, recIdx := p.2.2 }
    if p.1.isEmpty then runChunks oracle nows sinkFail rest s1
    else if sinkFail s1.sinkCalls then Except.error "sink write failed"
    else runChunks oracle nows sinkFail rest
      { s1 with successful := s1.successful + p.1.length,
                file := save_results_async p.1 s1.file,
                sinkCalls := s1.sinkCalls + 1 }

/-- `process_contacts(contacts, output_file, batch_size)`: builds its
own `KeyManager` from the environment and the stored usage file, then
processes the chunks; returns `(processed, successful)`. -/
def process_contacts (oracle : Nat → Nat → CallOutcome) (nows : Nat → Nat → PyDateTime)
    (sinkFail : Nat → Bool) (envKeys : String) (stored : Option Json)
    (contacts : List Row) (batch_size : Nat) : Except String (Nat × Nat) :=
  (runChunks oracle nows sinkFail (pychunks batch_size contacts)
      ⟨0, 0, "", 0, KeyManager.init envKeys stored, 0⟩).map
    (fun s => (s.processed, s.successful))

/-- The full chunk-loop state, for observing sink-call counts. -/
def process_contacts_state (oracle : Nat → Nat → CallOutcome) (nows : Nat → Nat → PyDateTime)
    (sinkFail : Nat → Bool) (envKeys : String) (stored : Option Json)
    (contacts : List Row) (batch_size : Nat) : Except String BatchSt :=
  runChunks oracle nows sinkFail (pychunks batch_size contacts)
    ⟨0, 0, "", 0, KeyManager.init envKeys stored, 0⟩

/-! ### A standard CSV reader (for the round-trip property of the sink) -/

/-- Reads the body of a double-quoted CSV field: `""` is an escaped
quote, a lone `"` closes the field. -/
def parseQF : List Char → List Char → Option (List Char × List Char)
  | _, [] => none
  | acc, c :: cs =>
    if c = '"' then
      match cs with
      | [] => some (acc, [])
      | c2 :: cs2 => if c2 = '"' then parseQF (acc ++ ['"']) cs2 else some (acc, c2 :: cs2)
    else parseQF (acc ++ [c]) cs

/-- A standard CSV parse of one produced row: three double-quoted
fields separated by commas and terminated by a newline. -/
def parseRecord (cs : List Char) : Option (String × String × String) :=
  match cs with
  | '"' :: rest =>
    match parseQF [] rest with
    | none => none
    | some (a, rest1) =>
      match rest1 with
      | ',' :: '"' :: rest2 =>
        match parseQF [] rest2 with
        | none => none
        | some (b, rest3) =>
          match rest3 with
          | ',' :: '"' :: rest4 =>
            match parseQF [] rest4 with
            | none => none
            | some (c, rest5) =>
              match rest5 with
              | ['\n'] => some (String.mk a, String.mk b, String.mk c)
              | _ => none
          | _ => none
      | _ => none
  | _ => none

def totalUsage (keys : List String) (usage : List (String × Nat)) : Nat :=
  (keys.map (fun k => dgetD usage k 0)).sum

/-- No stored window is stale at time `now` (so the lazy reset never fires). -/
def NoReset (resets : List (String × PyDateTime)) (now : PyDateTime) : Prop :=
  ∀ k t, dlookup resets k = some t → dtSub now t ≤ h24micros

/-! ### Properties -/

theorem dlookup_nil {α : Type} (k : String) : dlookup ([] : List (String × α)) k = none := rfl

theorem dlookup_cons {α : Type} (k1 : String) (v1 : α) (rest : List (String × α)) (k : String) :
    dlookup ((k1, v1) :: rest) k = if k1 = k then some v1 else dlookup rest k := by
  by_cases h : k1 = k
  · subst h
    unfold dlookup
    rw [List.find?_cons_of_pos _ (by simp)]
    simp
  · rw [if_neg h]
    unfold dlookup
    rw [List.find?_cons_of_neg _ (by simp [h])]

theorem dlookup_dinsert {α : Type} (d : List (String × α)) (k k1 : String) (v : α) :
    dlookup (dinsert d k v) k1 = if k1 = k then some v else dlookup d k1 := by
  induction d with
  | nil =>
    show dlookup [(k, v)] k1 = _
    rw [dlookup_cons]
    by_cases h : k1 = k
    · subst h; simp
    · have h4 : ¬k = k1 := fun h1 => h h1.symm
      simp [h, h4, dlookup_nil]
  | cons p rest ih =>
    obtain ⟨k2, v2⟩ := p
    by_cases h2 : k2 = k
    · subst h2
      show dlookup (if (k2 == k2) = true then (k2, v) :: rest else _) k1 = _
      rw [if_pos (by simp), dlookup_cons, dlookup_cons]
      by_cases h : k1 = k2
      · subst h; simp
      · have h4 : ¬k2 = k1 := fun h1 => h h1.symm
        simp [h, h4]
    · show dlookup (if (k2 == k) = true then _ else (k2, v2) :: dinsert rest k v) k1 = _
      rw [if_neg (by simp [h2]), dlookup_cons, ih, dlookup_cons]
      by_cases h : k1 = k
      · subst h
        have h4 : ¬k2 = k1 := h2
        simp [h4]
      · by_cases h3 : k2 = k1 <;> simp [h, h3]

theorem dlookup_append_single {α : Type} (d : List (String × α)) (k k1 : String) (v : α)
    (h : dlookup d k1 = none) :
    dlookup (d ++ [(k, v)]) k1 = if k1 = k then some v else none := by
  induction d with
  | nil =>
    show dlookup [(k, v)] k1 = _
    rw [dlookup_cons]
    by_cases h1 : k1 = k
    · subst h1; simp
    · have h4 : ¬k = k1 := fun h2 => h1 h2.symm
      simp [h1, h4, dlookup_nil]
  | cons p rest ih =>
    obtain ⟨k2, v2⟩ := p
    rw [dlookup_cons] at h
    by_cases h2 : k2 = k1
    · simp [h2] at h
    · rw [if_neg h2] at h
      show dlookup ((k2, v2) :: (rest ++ [(k, v)])) k1 = _
      rw [dlookup_cons, if_neg h2, ih h]

theorem dlookup_append_some {α : Type} (d : List (String × α)) (k k1 : String) (v w : α)
    (h : dlookup d k1 = some w) :
    dlookup (d ++ [(k, v)]) k1 = some w := by
  induction d with
  | nil => simp [dlookup_nil] at h
  | cons p rest ih =>
    obtain ⟨k2, v2⟩ := p
    rw [dlookup_cons] at h
    show dlookup ((k2, v2) :: (rest ++ [(k, v)])) k1 = _
    rw [dlookup_cons]
    by_cases h2 : k2 = k1
    · simpa [h2] using h
    · rw [if_neg h2] at h ⊢
      exact ih h

theorem dmatGet_fst {α : Type} (d : List (String × α)) (k : String) (v : α) :
    (dmatGet d k v).1 = dgetD d k v := by
  unfold dmatGet dgetD
  cases h : dlookup d k <;> simp [h]

theorem dlookup_dmatGet {α : Type} (d : List (String × α)) (k k1 : String) (v : α) :
    dlookup (dmatGet d k v).2 k1 =
      if k1 = k then some (dgetD d k v) else dlookup d k1 := by
  unfold dmatGet dgetD
  cases h : dlookup d k with
  | some w =>
    by_cases h1 : k1 = k
    · subst h1; simp [h]
    · simp [h1]
  | none =>
    by_cases h1 : k1 = k
    · subst h1
      simp only [h]
      rw [dlookup_append_single _ _ _ _ h, if_pos rfl]
      simp
    · simp only [h, if_neg h1]
      cases h2 : dlookup d k1 with
      | some w => exact dlookup_append_some _ _ _ _ _ h2
      | none => rw [dlookup_append_single _ _ _ _ h2, if_neg h1]

theorem dgetD_dinsert {α : Type} (d : List (String × α)) (k k1 : String) (v w : α) :
    dgetD (dinsert d k v) k1 w = if k1 = k then v else dgetD d k1 w := by
  unfold dgetD
  rw [dlookup_dinsert]
  by_cases h : k1 = k <;> simp [h]

theorem dgetD_dmatGet {α : Type} (d : List (String × α)) (k k1 : String) (v : α) :
    dgetD (dmatGet d k v).2 k1 v = dgetD d k1 v := by
  unfold dgetD
  rw [dlookup_dmatGet]
  by_cases h : k1 = k
  · subst h; cases h2 : dlookup d k1 <;> simp [dgetD, h2]
  · simp [h]

theorem dtSub_self (d : PyDateTime) : dtSub d d = 0 := by
  simp [dtSub]

theorem readDigit_digitChar (k : Nat) (h : k < 10) : readDigit (digitChar k) = some k := by
  interval_cases k <;> decide

theorem daysInMonth_le (y m : Nat) : daysInMonth y m ≤ 31 := by
  unfold daysInMonth
  split
  · split <;> omega
  · split <;> omega

theorem p2_pad2 (n : Nat) (h : n ≤ 99) (rest : List Char) :
    p2 (pad2 n ++ rest) = some (n, rest) := by
  have h1 : n / 10 < 10 := by omega
  have h2 : n % 10 < 10 := by omega
  show p2 (digitChar (n / 10) :: digitChar (n % 10) :: rest) = _
  rw [p2, readDigit_digitChar _ h1, readDigit_digitChar _ h2]
  show some (10 * (n / 10) + n % 10, rest) = _
  have h3 : 10 * (n / 10) + n % 10 = n := by omega
  rw [h3]

theorem p4_pad4 (n : Nat) (h : n ≤ 9999) (rest : List Char) :
    p4 (pad4 n ++ rest) = some (n, rest) := by
  have h1 : n / 1000 < 10 := by omega
  have h2 : n / 100 % 10 < 10 := by omega
  have h3 : n / 10 % 10 < 10 := by omega
  have h4 : n % 10 < 10 := by omega
  show p4 (digitChar (n / 1000) :: digitChar (n / 100 % 10) :: digitChar (n / 10 % 10) ::
    digitChar (n % 10) :: rest) = _
  rw [p4, readDigit_digitChar _ h1, readDigit_digitChar _ h2, readDigit_digitChar _ h3,
    readDigit_digitChar _ h4]
  show some (1000 * (n / 1000) + 100 * (n / 100 % 10) + 10 * (n / 10 % 10) + n % 10, rest) = _
  have h5 : 1000 * (n / 1000) + 100 * (n / 100 % 10) + 10 * (n / 10 % 10) + n % 10 = n := by
    omega
  rw [h5]

theorem p6_pad6 (n : Nat) (h : n ≤ 999999) (rest : List Char) :
    p6 (pad6 n ++ rest) = some (n, rest) := by
  have h1 : n / 100000 < 10 := by omega
  have h2 : n / 10000 % 10 < 10 := by omega
  have h3 : n / 1000 % 10 < 10 := by omega
  have h4 : n / 100 % 10 < 10 := by omega
  have h5 : n / 10 % 10 < 10 := by omega
  have h6 : n % 10 < 10 := by omega
  show p6 (digitChar (n / 100000) :: digitChar (n / 10000 % 10) :: digitChar (n / 1000 % 10) ::
    digitChar (n / 100 % 10) :: digitChar (n / 10 % 10) :: digitChar (n % 10) :: rest) = _
  rw [p6, readDigit_digitChar _ h1, readDigit_digitChar _ h2, readDigit_digitChar _ h3,
    readDigit_digitChar _ h4, readDigit_digitChar _ h5, readDigit_digitChar _ h6]
  show some (100000 * (n / 100000) + 10000 * (n / 10000 % 10) + 1000 * (n / 1000 % 10) +
    100 * (n / 100 % 10) + 10 * (n / 10 % 10) + n % 10, rest) = _
  have h7 : 100000 * (n / 100000) + 10000 * (n / 10000 % 10) + 1000 * (n / 1000 % 10) +
      100 * (n / 100 % 10) + 10 * (n / 10 % 10) + n % 10 = n := by omega
  rw [h7]

theorem pLit_cons (c : Char) (rest : List Char) : pLit c (c :: rest) = some rest := by
  simp [pLit]

theorem fromisoformat_isoformat (d : PyDateTime) (h : validDT d) :
    fromisoformat (isoformat d) = some d := by
  obtain ⟨h1, h2, h3, h4, h5, h6, h7, h8, h9, h10⟩ := h
  have hd99 : d.day ≤ 99 := le_trans h6 (le_trans (daysInMonth_le _ _) (by omega))
  show fromChars (isoChars d) = some d
  by_cases hm : d.micro = 0
  · have hsec : p2 (pad2 d.second) = some (d.second, []) := by
      have := p2_pad2 d.second (by omega) []
      rwa [List.append_nil] at this
    simp only [isoChars, if_pos hm, List.append_nil, fromChars,
      p4_pad4 d.year (by omega), pLit_cons,
      p2_pad2 d.month (by omega), p2_pad2 d.day hd99,
      p2_pad2 d.hour (by omega), p2_pad2 d.minute (by omega),
      hsec, pMicro]
    rw [if_pos ⟨trivial, h1, h2, h3, h4, h5, h6, h7, h8, h9, by omega⟩, ← hm]
  · have hmic : pMicro ('.' :: pad6 d.micro) = some (d.micro, []) := by
      rw [pMicro, if_pos rfl]
      have := p6_pad6 d.micro (by omega) []
      rwa [List.append_nil] at this
    simp only [isoChars, if_neg hm, fromChars,
      p4_pad4 d.year (by omega), pLit_cons,
      p2_pad2 d.month (by omega), p2_pad2 d.day hd99,
      p2_pad2 d.hour (by omega), p2_pad2 d.minute (by omega),
      p2_pad2 d.second (by omega), hmic]
    rw [if_pos ⟨trivial, h1, h2, h3, h4, h5, h6, h7, h8, h9, h10⟩]

/-! ### Helper lemmas about the rotator state -/

theorem dlookup_map {α β : Type} (f : α → β) (l : List (String × α)) (k : String) :
    dlookup (l.map (fun p => (p.1, f p.2))) k = (dlookup l k).map f := by
  induction l with
  | nil => rfl
  | cons p rest ih =>
    obtain ⟨k1, v1⟩ := p
    simp only [List.map_cons]
    rw [dlookup_cons, dlookup_cons]
    by_cases h : k1 = k <;> simp [h, ih]

theorem dmatGet_present {α : Type} (d : List (String × α)) (k : String) (v w : α)
    (h : dlookup d k = some w) : dmatGet d k v = (w, d) := by
  unfold dmatGet
  rw [h]

theorem dmatGet_entries {α : Type} (d : List (String × α)) (k k1 : String) (v : α)
    (t : α) (h : dlookup (dmatGet d k v).2 k1 = some t) :
    dlookup d k1 = some t ∨ t = v := by
  rw [dlookup_dmatGet] at h
  by_cases h1 : k1 = k
  · subst h1
    rw [if_pos rfl] at h
    unfold dgetD at h
    cases h2 : dlookup d k1 with
    | some w =>
      rw [h2] at h
      simp only [Option.getD_some] at h
      left
      exact h
    | none =>
      rw [h2] at h
      simp only [Option.getD_none, Option.some.injEq] at h
      right
      exact h.symm
  · rw [if_neg h1] at h
    exact Or.inl h

theorem dgetD_pos_lookup (d : List (String × Nat)) (k : String) (h : 0 < dgetD d k 0) :
    dlookup d k = some (dgetD d k 0) := by
  unfold dgetD at *
  cases h2 : dlookup d k with
  | some w => simp [h2]
  | none => rw [h2] at h; simp at h

theorem getD_eq_get (l : List String) (i : Nat) (h : i < l.length) :
    l.getD i "" = l.get ⟨i, h⟩ := by
  induction l generalizing i with
  | nil => simp at h
  | cons a l ih =>
    cases i with
    | zero => rfl
    | succ i => exact ih i (by simpa using h)

theorem getD_mem (l : List String) (i : Nat) (h : i < l.length) : l.getD i "" ∈ l := by
  rw [getD_eq_get l i h]
  exact List.get_mem l i h

theorem cyclic_index (l : List String) (k : String) (idx : Nat)
    (hidx : idx < l.length) (hk : k ∈ l) :
    ∃ j, j < l.length ∧ l.getD ((idx + j) % l.length) "" = k := by
  obtain ⟨i, hik⟩ := List.mem_iff_get.mp hk
  refine ⟨(l.length + i.1 - idx) % l.length, Nat.mod_lt _ (by omega), ?_⟩
  have h1 : (idx + (l.length + i.1 - idx) % l.length) % l.length
      = (idx + (l.length + i.1 - idx)) % l.length := Nat.add_mod_mod _ _ _
  have h2 : idx + (l.length + i.1 - idx) = l.length + i.1 := by omega
  have h3 : (l.length + i.1) % l.length = i.1 := by
    rw [Nat.add_mod_left]
    exact Nat.mod_eq_of_lt i.2
  rw [h1, h2, h3, getD_eq_get l i.1 i.2]
  exact hik

theorem totalUsage_congr (keys : List String) (u1 u2 : List (String × Nat))
    (h : ∀ k ∈ keys, dgetD u1 k 0 = dgetD u2 k 0) :
    totalUsage keys u1 = totalUsage keys u2 := by
  unfold totalUsage
  congr 1
  exact List.map_congr_left (fun k hk => h k hk)

theorem totalUsage_incr (keys : List String) (u1 u2 : List (String × Nat)) (k : String)
    (hnd : keys.Nodup) (hk : k ∈ keys)
    (h : ∀ k1, dgetD u2 k1 0 = if k1 = k then dgetD u1 k1 0 + 1 else dgetD u1 k1 0) :
    totalUsage keys u2 = totalUsage keys u1 + 1 := by
  induction keys with
  | nil => simp at hk
  | cons a keys ih =>
    rw [List.nodup_cons] at hnd
    unfold totalUsage
    simp only [List.map_cons, List.sum_cons]
    rcases List.mem_cons.mp hk with h1 | h1
    · have h2 : dgetD u2 a 0 = dgetD u1 a 0 + 1 := by rw [h, if_pos h1.symm]
      have h3 : keys.map (fun k1 => dgetD u2 k1 0) = keys.map (fun k1 => dgetD u1 k1 0) := by
        apply List.map_congr_left
        intro b hb
        have hbk : ¬b = k := by
          intro hbk
          apply hnd.1
          have hak : a ∈ keys := by rw [← h1, ← hbk]; exact hb
          exact hak
        rw [h, if_neg hbk]
      rw [h2, h3]
      omega
    · have h2 : dgetD u2 a 0 = dgetD u1 a 0 := by
        have hak : ¬a = k := by
          intro hak
          apply hnd.1
          rw [hak]
          exact h1
        rw [h, if_neg hak]
      have h3 := ih hnd.2 h1
      unfold totalUsage at h3
      rw [h2, h3]
      omega

theorem totalUsage_lower (keys : List String) (usage : List (String × Nat))
    (h : ∀ k ∈ keys, QUOTA ≤ dgetD usage k 0) :
    keys.length * QUOTA ≤ totalUsage keys usage := by
  induction keys with
  | nil => simp [totalUsage]
  | cons a keys ih =>
    unfold totalUsage
    simp only [List.map_cons, List.sum_cons, List.length_cons]
    have h1 := h a (List.mem_cons_self a keys)
    have h2 := ih (fun k hk => h k (List.mem_cons_of_mem a hk))
    unfold totalUsage at h2
    have h3 : (keys.length + 1) * QUOTA = keys.length * QUOTA + QUOTA := by ring
    omega

theorem totalUsage_pigeonhole (keys : List String) (usage : List (String × Nat))
    (h : totalUsage keys usage < keys.length * QUOTA) :
    ∃ k ∈ keys, dgetD usage k 0 < QUOTA := by
  by_contra hc
  push_neg at hc
  exact absurd (totalUsage_lower keys usage hc) (by omega)

theorem h24micros_nonneg : (0 : Int) ≤ h24micros := by norm_num [h24micros]

theorem resetPhase_noReset (usage : List (String × Nat)) (resets : List (String × PyDateTime))
    (key : String) (now : PyDateTime) (h : NoReset resets now) :
    resetPhase usage resets key now = (usage, (dmatGet resets key now).2) := by
  unfold resetPhase
  rw [if_neg]
  rw [dmatGet_fst]
  unfold dgetD
  cases hl : dlookup resets key with
  | some t =>
    have := h key t hl
    simp only [Option.getD_some]
    omega
  | none =>
    simp only [Option.getD_none, dtSub_self]
    have := h24micros_nonneg
    omega

theorem resetPhase_usage_keep (usage : List (String × Nat))
    (resets : List (String × PyDateTime)) (key : String) (now : PyDateTime) (c : String)
    (h : c ≠ key) :
    dgetD (resetPhase usage resets key now).1 c 0 = dgetD usage c 0 := by
  unfold resetPhase
  by_cases hif : dtSub now (dmatGet resets key now).1 > h24micros
  · simp only [if_pos hif]
    rw [dgetD_dinsert, if_neg h]
  · simp only [if_neg hif]

theorem resetPhase_resets_keep (usage : List (String × Nat))
    (resets : List (String × PyDateTime)) (key : String) (now : PyDateTime) (c : String)
    (h : c ≠ key) :
    dlookup (resetPhase usage resets key now).2 c = dlookup resets c := by
  by_cases hif : dtSub now (dmatGet resets key now).1 > h24micros
  · unfold resetPhase
    simp only [if_pos hif]
    rw [dlookup_dinsert, if_neg h, dlookup_dmatGet, if_neg h]
  · unfold resetPhase
    simp only [if_neg hif]
    rw [dlookup_dmatGet, if_neg h]

theorem NoReset_dmatGet (resets : List (String × PyDateTime)) (now : PyDateTime) (key : String)
    (h : NoReset resets now) : NoReset (dmatGet resets key now).2 now := by
  intro k t hl
  rcases dmatGet_entries _ _ _ _ _ hl with h1 | h1
  · exact h k t h1
  · rw [h1, dtSub_self]
    exact h24micros_nonneg

theorem acquireGo_step_noReset (keys : List String) (now : PyDateTime)
    (fuel : Nat) (usage : List (String × Nat)) (resets : List (String × PyDateTime)) (idx : Nat)
    (hNR : NoReset resets now) :
    acquireGo keys now (fuel + 1) usage resets idx =
      if dgetD usage (keys.getD idx "") 0 < QUOTA then
        ⟨some (keys.getD idx ""),
         dinsert (dmatGet usage (keys.getD idx "") 0).2 (keys.getD idx "")
           (dgetD usage (keys.getD idx "") 0 + 1),
         (dmatGet resets (keys.getD idx "") now).2, idx⟩
      else
        acquireGo keys now fuel (dmatGet usage (keys.getD idx "") 0).2
          (dmatGet resets (keys.getD idx "") now).2 ((idx + 1) % keys.length) := by
  rw [acquireGo]
  simp only [resetPhase_noReset usage resets _ now hNR, dmatGet_fst]

theorem acquireGo_scan (keys : List String) (now : PyDateTime) :
    ∀ (fuel : Nat) (usage : List (String × Nat)) (resets : List (String × PyDateTime)) (idx : Nat),
    NoReset resets now →
    idx < keys.length →
    (∃ j, j < fuel ∧ dgetD usage (keys.getD ((idx + j) % keys.length) "") 0 < QUOTA) →
    ∃ k, k ∈ keys ∧
      (acquireGo keys now fuel usage resets idx).result = some k ∧
      dgetD usage k 0 < QUOTA ∧
      (∀ k1, dgetD (acquireGo keys now fuel usage resets idx).usage k1 0 =
        if k1 = k then dgetD usage k1 0 + 1 else dgetD usage k1 0) ∧
      (∀ k1 t, dlookup (acquireGo keys now fuel usage resets idx).resets k1 = some t →
        dlookup resets k1 = some t ∨ t = now) ∧
      (acquireGo keys now fuel usage resets idx).index < keys.length := by
  intro fuel
  induction fuel with
  | zero =>
    intro usage resets idx _ _ hj
    obtain ⟨j, hj0, _⟩ := hj
    omega
  | succ fuel ih =>
    intro usage resets idx hNR hidx hj
    have hstep := acquireGo_step_noReset keys now fuel usage resets idx hNR
    by_cases hq : dgetD usage (keys.getD idx "") 0 < QUOTA
    · rw [if_pos hq] at hstep
      refine ⟨keys.getD idx "", getD_mem keys idx hidx, ?_, hq, ?_, ?_, ?_⟩
      · rw [hstep]
      · intro k1
        rw [hstep]
        simp only
        rw [dgetD_dinsert]
        by_cases h1 : k1 = keys.getD idx ""
        · rw [if_pos h1, if_pos h1, h1]
        · rw [if_neg h1, if_neg h1, dgetD_dmatGet]
      · intro k1 t hl
        rw [hstep] at hl
        simp only at hl
        exact dmatGet_entries _ _ _ _ _ hl
      · rw [hstep]
        exact hidx
    · rw [if_neg hq] at hstep
      -- the recursive call
      have hidx1 : (idx + 1) % keys.length < keys.length := Nat.mod_lt _ (by omega)
      have hNR1 : NoReset (dmatGet resets (keys.getD idx "") now).2 now :=
        NoReset_dmatGet resets now _ hNR
      have hj1 : ∃ j, j < fuel ∧
          dgetD (dmatGet usage (keys.getD idx "") 0).2
            (keys.getD (((idx + 1) % keys.length + j) % keys.length) "") 0 < QUOTA := by
        obtain ⟨j, hj0, hjq⟩ := hj
        cases j with
        | zero =>
          exfalso
          apply hq
          have : (idx + 0) % keys.length = idx := by
            rw [Nat.add_zero]
            exact Nat.mod_eq_of_lt hidx
          rwa [this] at hjq
        | succ j =>
          refine ⟨j, by omega, ?_⟩
          have hmod : ((idx + 1) % keys.length + j) % keys.length
              = (idx + (j + 1)) % keys.length := by
            rw [Nat.mod_add_mod]
            congr 1
            omega
          rw [hmod, dgetD_dmatGet]
          exact hjq
      obtain ⟨k, hk1, hk2, hk3, hk4, hk5, hk6⟩ :=
        ih (dmatGet usage (keys.getD idx "") 0).2 (dmatGet resets (keys.getD idx "") now).2
          ((idx + 1) % keys.length) hNR1 hidx1 hj1
      rw [dgetD_dmatGet] at hk3
      refine ⟨k, hk1, ?_, hk3, ?_, ?_, ?_⟩
      · rw [hstep]
        exact hk2
      · intro k1
        rw [hstep, hk4 k1, dgetD_dmatGet]
      · intro k1 t hl
        rw [hstep] at hl
        rcases hk5 k1 t hl with h1 | h1
        · exact dmatGet_entries _ _ _ _ _ h1
        · exact Or.inr h1
      · rw [hstep]
        exact hk6

theorem acquireGo_step (keys : List String) (now : PyDateTime) (fuel : Nat)
    (usage : List (String × Nat)) (resets : List (String × PyDateTime)) (idx : Nat) :
    acquireGo keys now (fuel + 1) usage resets idx =
      if (dmatGet (resetPhase usage resets (keys.getD idx "") now).1 (keys.getD idx "") 0).1
          < QUOTA then
        ⟨some (keys.getD idx ""),
         dinsert
           (dmatGet (resetPhase usage resets (keys.getD idx "") now).1 (keys.getD idx "") 0).2
           (keys.getD idx "")
           ((dmatGet (resetPhase usage resets (keys.getD idx "") now).1 (keys.getD idx "") 0).1
             + 1),
         (resetPhase usage resets (keys.getD idx "") now).2, idx⟩
      else
        acquireGo keys now fuel
          (dmatGet (resetPhase usage resets (keys.getD idx "") now).1 (keys.getD idx "") 0).2
          (resetPhase usage resets (keys.getD idx "") now).2 ((idx + 1) % keys.length) := rfl

theorem acquireGo_avoid (keys : List String) (now : PyDateTime) (c : String) (tc : PyDateTime)
    (hwin : dtSub now tc ≤ h24micros) :
    ∀ (fuel : Nat) (usage : List (String × Nat)) (resets : List (String × PyDateTime)) (idx : Nat),
    dlookup resets c = some tc →
    QUOTA ≤ dgetD usage c 0 →
    (acquireGo keys now fuel usage resets idx).result ≠ some c ∧
    dlookup (acquireGo keys now fuel usage resets idx).resets c = some tc ∧
    QUOTA ≤ dgetD (acquireGo keys now fuel usage resets idx).usage c 0 := by
  intro fuel
  induction fuel with
  | zero =>
    intro usage resets idx hl hq
    refine ⟨?_, hl, hq⟩
    intro hcon
    rw [acquireGo] at hcon
    exact Option.noConfusion hcon
  | succ fuel ih =>
    intro usage resets idx hl hq
    by_cases hkc : keys.getD idx "" = c
    · have hRP : resetPhase usage resets (keys.getD idx "") now = (usage, resets) := by
        unfold resetPhase
        rw [hkc, dmatGet_present resets c now tc hl]
        simp only
        rw [if_neg (by omega)]
      have hup : dmatGet usage (keys.getD idx "") 0 = (dgetD usage c 0, usage) := by
        rw [hkc]
        exact dmatGet_present _ _ _ _ (dgetD_pos_lookup usage c (by unfold QUOTA at hq; omega))
      rw [acquireGo_step]
      simp only [hRP, hup]
      rw [if_neg (by omega)]
      exact ih usage resets _ hl hq
    · have hck : c ≠ keys.getD idx "" := fun h => hkc h.symm
      have h1 : dgetD (resetPhase usage resets (keys.getD idx "") now).1 c 0
          = dgetD usage c 0 := resetPhase_usage_keep _ _ _ _ _ hck
      have h2 : dlookup (resetPhase usage resets (keys.getD idx "") now).2 c = some tc := by
        rw [resetPhase_resets_keep _ _ _ _ _ hck]
        exact hl
      have h3 : dgetD
          (dmatGet (resetPhase usage resets (keys.getD idx "") now).1 (keys.getD idx "") 0).2
          c 0 = dgetD usage c 0 := by
        rw [dgetD_dmatGet, h1]
      rw [acquireGo_step]
      by_cases hcond :
          (dmatGet (resetPhase usage resets (keys.getD idx "") now).1 (keys.getD idx "") 0).1
            < QUOTA
      · rw [if_pos hcond]
        refine ⟨?_, h2, ?_⟩
        · intro hcon
          exact hkc (Option.some.inj hcon)
        · show QUOTA ≤ dgetD
            (dinsert
              (dmatGet (resetPhase usage resets (keys.getD idx "") now).1 (keys.getD idx "") 0).2
              (keys.getD idx "")
              ((dmatGet (resetPhase usage resets (keys.getD idx "") now).1
                (keys.getD idx "") 0).1 + 1)) c 0
          rw [dgetD_dinsert, if_neg hck, h3]
          exact hq
      · rw [if_neg hcond]
        exact ih _ _ _ h2 (by rw [h3]; exact hq)

theorem iterAcquire_inv (keys : List String) (hN : 0 < keys.length) (hnd : keys.Nodup)
    (nows : Nat → PyDateTime) (hwin : ∀ i j, dtSub (nows i) (nows j) ≤ h24micros)
    (M : Nat) (hM : M ≤ keys.length * QUOTA) :
    ∀ m, m ≤ M →
      (iterAcquire nows m ⟨keys, [], [], 0⟩).api_keys = keys ∧
      (iterAcquire nows m ⟨keys, [], [], 0⟩).current_key_index < keys.length ∧
      (∀ k, dgetD (iterAcquire nows m ⟨keys, [], [], 0⟩).key_usage k 0 ≤ QUOTA) ∧
      totalUsage keys (iterAcquire nows m ⟨keys, [], [], 0⟩).key_usage ≤ m ∧
      (∀ k t, dlookup (iterAcquire nows m ⟨keys, [], [], 0⟩).last_reset k = some t →
        ∀ i, dtSub (nows i) t ≤ h24micros) := by
  intro m
  induction m with
  | zero =>
    intro _
    refine ⟨rfl, hN, ?_, ?_, ?_⟩
    · intro k
      show dgetD [] k 0 ≤ QUOTA
      simp [dgetD, dlookup_nil]
    · show totalUsage keys [] ≤ 0
      have : totalUsage keys [] = 0 := by
        unfold totalUsage
        have : keys.map (fun k => dgetD [] k 0) = keys.map (fun _ => 0) :=
          List.map_congr_left (fun k _ => by simp [dgetD, dlookup_nil])
        rw [this]
        simp
      omega
    · intro k t hl
      have h0 : dlookup ([] : List (String × PyDateTime)) k = some t := hl
      rw [dlookup_nil] at h0
      exact Option.noConfusion h0
  | succ m ih =>
    intro hm
    obtain ⟨hkeys, hidx, hq, htot, hres⟩ := ih (by omega)
    have hNR : NoReset (iterAcquire nows m ⟨keys, [], [], 0⟩).last_reset (nows m) :=
      fun k t hl => hres k t hl m
    have hfind : ∃ j, j < keys.length ∧
        dgetD (iterAcquire nows m ⟨keys, [], [], 0⟩).key_usage
          (keys.getD (((iterAcquire nows m ⟨keys, [], [], 0⟩).current_key_index + j)
            % keys.length) "") 0 < QUOTA := by
      have hlt : totalUsage keys (iterAcquire nows m ⟨keys, [], [], 0⟩).key_usage
          < keys.length * QUOTA := by omega
      obtain ⟨k, hk, hklt⟩ :=
        totalUsage_pigeonhole keys (iterAcquire nows m ⟨keys, [], [], 0⟩).key_usage hlt
      obtain ⟨j, hj1, hj2⟩ := cyclic_index keys k
        (iterAcquire nows m ⟨keys, [], [], 0⟩).current_key_index hidx hk
      exact ⟨j, hj1, by rw [hj2]; exact hklt⟩
    obtain ⟨k, hk1, hk2, hk3, hk4, hk5, hk6⟩ :=
      acquireGo_scan keys (nows m) keys.length
        (iterAcquire nows m ⟨keys, [], [], 0⟩).key_usage
        (iterAcquire nows m ⟨keys, [], [], 0⟩).last_reset
        (iterAcquire nows m ⟨keys, [], [], 0⟩).current_key_index hNR hidx hfind
    have hu : (iterAcquire nows (m + 1) ⟨keys, [], [], 0⟩).key_usage
        = (acquireGo (iterAcquire nows m ⟨keys, [], [], 0⟩).api_keys (nows m)
            (iterAcquire nows m ⟨keys, [], [], 0⟩).api_keys.length
            (iterAcquire nows m ⟨keys, [], [], 0⟩).key_usage
            (iterAcquire nows m ⟨keys, [], [], 0⟩).last_reset
            (iterAcquire nows m ⟨keys, [], [], 0⟩).current_key_index).usage := rfl
    have hr : (iterAcquire nows (m + 1) ⟨keys, [], [], 0⟩).last_reset
        = (acquireGo (iterAcquire nows m ⟨keys, [], [], 0⟩).api_keys (nows m)
            (iterAcquire nows m ⟨keys, [], [], 0⟩).api_keys.length
            (iterAcquire nows m ⟨keys, [], [], 0⟩).key_usage
            (iterAcquire nows m ⟨keys, [], [], 0⟩).last_reset
            (iterAcquire nows m ⟨keys, [], [], 0⟩).current_key_index).resets := rfl
    have hi : (iterAcquire nows (m + 1) ⟨keys, [], [], 0⟩).current_key_index
        = (acquireGo (iterAcquire nows m ⟨keys, [], [], 0⟩).api_keys (nows m)
            (iterAcquire nows m ⟨keys, [], [], 0⟩).api_keys.length
            (iterAcquire nows m ⟨keys, [], [], 0⟩).key_usage
            (iterAcquire nows m ⟨keys, [], [], 0⟩).last_reset
            (iterAcquire nows m ⟨keys, [], [], 0⟩).current_key_index).index := rfl
    have ha : (iterAcquire nows (m + 1) ⟨keys, [], [], 0⟩).api_keys
        = (iterAcquire nows m ⟨keys, [], [], 0⟩).api_keys := rfl
    rw [hkeys] at hu hr hi
    refine ⟨by rw [ha, hkeys], by rw [hi]; exact hk6, ?_, ?_, ?_⟩
    · intro k1
      rw [hu, hk4 k1]
      by_cases h1 : k1 = k
      · rw [if_pos h1, h1]
        have := hk3
        omega
      · rw [if_neg h1]
        exact hq k1
    · rw [hu]
      have := totalUsage_incr keys (iterAcquire nows m ⟨keys, [], [], 0⟩).key_usage
        (acquireGo keys (nows m) keys.length
          (iterAcquire nows m ⟨keys, [], [], 0⟩).key_usage
          (iterAcquire nows m ⟨keys, [], [], 0⟩).last_reset
          (iterAcquire nows m ⟨keys, [], [], 0⟩).current_key_index).usage k hnd hk1 hk4
      omega
    · intro k1 t hl i
      rw [hr] at hl
      rcases hk5 k1 t hl with h1 | h1
      · exact hres k1 t h1 i
      · rw [h1]
        exact hwin i m

/-- Claim C1: for a pool of N ≥ 1 distinct credentials starting fresh, any
M ≤ N·QUOTA consecutive `acquire()` calls whose wall-clock times all lie
within one 24-hour window (i) each return a credential (never NONE),
(ii) never drive any credential's `callsUsed` above QUOTA, and
(iii) never return a credential whose `callsUsed` had already reached
QUOTA. -/
theorem claim1_acquire_capacity
    (keys : List String) (hN : 0 < keys.length) (hnd : keys.Nodup)
    (nows : Nat → PyDateTime) (hwin : ∀ i j, dtSub (nows i) (nows j) ≤ h24micros)
    (M : Nat) (hM : M ≤ keys.length * QUOTA) :
    (∀ m, m < M →
      ((get_next_available_key (iterAcquire nows m ⟨keys, [], [], 0⟩) (nows m)).1).isSome) ∧
    (∀ m, m ≤ M → ∀ k,
      dgetD (iterAcquire nows m ⟨keys, [], [], 0⟩).key_usage k 0 ≤ QUOTA) ∧
    (∀ m k, m < M →
      (get_next_available_key (iterAcquire nows m ⟨keys, [], [], 0⟩) (nows m)).1 = some k →
      dgetD (iterAcquire nows m ⟨keys, [], [], 0⟩).key_usage k 0 < QUOTA) := by
  have hinv := iterAcquire_inv keys hN hnd nows hwin M hM
  have main : ∀ m, m < M → ∃ k,
      (get_next_available_key (iterAcquire nows m ⟨keys, [], [], 0⟩) (nows m)).1 = some k ∧
      dgetD (iterAcquire nows m ⟨keys, [], [], 0⟩).key_usage k 0 < QUOTA := by
    intro m hm
    obtain ⟨hkeys, hidx, hq, htot, hres⟩ := hinv m (by omega)
    have hNR : NoReset (iterAcquire nows m ⟨keys, [], [], 0⟩).last_reset (nows m) :=
      fun k t hl => hres k t hl m
    have hfind : ∃ j, j < keys.length ∧
        dgetD (iterAcquire nows m ⟨keys, [], [], 0⟩).key_usage
          (keys.getD (((iterAcquire nows m ⟨keys, [], [], 0⟩).current_key_index + j)
            % keys.length) "") 0 < QUOTA := by
      have hlt : totalUsage keys (iterAcquire nows m ⟨keys, [], [], 0⟩).key_usage
          < keys.length * QUOTA := by omega
      obtain ⟨k, hk, hklt⟩ :=
        totalUsage_pigeonhole keys (iterAcquire nows m ⟨keys, [], [], 0⟩).key_usage hlt
      obtain ⟨j, hj1, hj2⟩ := cyclic_index keys k
        (iterAcquire nows m ⟨keys, [], [], 0⟩).current_key_index hidx hk
      exact ⟨j, hj1, by rw [hj2]; exact hklt⟩
    obtain ⟨k, hk1, hk2, hk3, _, _, _⟩ :=
      acquireGo_scan keys (nows m) keys.length
        (iterAcquire nows m ⟨keys, [], [], 0⟩).key_usage
        (iterAcquire nows m ⟨keys, [], [], 0⟩).last_reset
        (iterAcquire nows m ⟨keys, [], [], 0⟩).current_key_index hNR hidx hfind
    have hb : (get_next_available_key (iterAcquire nows m ⟨keys, [], [], 0⟩) (nows m)).1
        = (acquireGo (iterAcquire nows m ⟨keys, [], [], 0⟩).api_keys (nows m)
            (iterAcquire nows m ⟨keys, [], [], 0⟩).api_keys.length
            (iterAcquire nows m ⟨keys, [], [], 0⟩).key_usage
            (iterAcquire nows m ⟨keys, [], [], 0⟩).last_reset
            (iterAcquire nows m ⟨keys, [], [], 0⟩).current_key_index).result := rfl
    rw [hkeys] at hb
    exact ⟨k, by rw [hb]; exact hk2, hk3⟩
  refine ⟨?_, ?_, ?_⟩
  · intro m hm
    obtain ⟨k, hk2, _⟩ := main m hm
    rw [hk2]
    rfl
  · intro m hm k
    exact ((hinv m hm).2.2.1) k
  · intro m k hm hsome
    obtain ⟨k', hk2, hk3⟩ := main m hm
    rw [hk2] at hsome
    have hkk := Option.some.inj hsome
    rw [← hkk]
    exact hk3

theorem claim1_witness :
    (((get_next_available_key (iterAcquire (fun _ => dtJan1) 0 ⟨["a"], [], [], 0⟩)
        dtJan1).1).isSome = true) ∧
    dgetD (iterAcquire (fun _ => dtJan1) 1 ⟨["a"], [], [], 0⟩).key_usage "a" 0 ≤ QUOTA := by
  have h := claim1_acquire_capacity ["a"] (by decide) (by decide) (fun _ => dtJan1)
    (fun i j => by
      show dtSub dtJan1 dtJan1 ≤ h24micros
      rw [dtSub_self]
      exact h24micros_nonneg)
    1 (by norm_num [QUOTA])
  exact ⟨h.1 0 (by omega), h.2.1 1 (by omega) "a"⟩

/-- Claim C3 counterexample: the quota-error branch does not set
`callsUsed` to QUOTA = 1450 — it sets it to 1500. -/
theorem claim3_counterexample :
    dgetD (markExhausted ⟨["a"], [("a", 7)], [], 0⟩ "a").key_usage "a" 0 = 1500 ∧
    dgetD (markExhausted ⟨["a"], [("a", 7)], [], 0⟩ "a").key_usage "a" 0 ≠ QUOTA := by
  decide

/-- Claim C3 (amended): `markExhausted(c)` sets `c`'s `callsUsed` to 1500
(a value strictly above QUOTA, not QUOTA itself), the persisted ledger
records that value for `c`, and every subsequent `acquire()` within
`c`'s current 24-hour window keeps `c` at or above QUOTA and never
returns `c`, regardless of its prior `callsUsed`. -/
theorem claim3_markExhausted_excludes
    (st : KeyManager) (c : String) (tc : PyDateTime)
    (hl : dlookup st.last_reset c = some tc)
    (nows : Nat → PyDateTime) (hwin : ∀ i, dtSub (nows i) tc ≤ h24micros) :
    dgetD (markExhausted st c).key_usage c 0 = 1500 ∧
    savedUsage
      (save_usage_state (markExhausted st c).key_usage (markExhausted st c).last_reset) c
      = some (Json.num 1500) ∧
    (∀ m, QUOTA ≤ dgetD (iterAcquire nows m (markExhausted st c)).key_usage c 0 ∧
      dlookup (iterAcquire nows m (markExhausted st c)).last_reset c = some tc ∧
      (get_next_available_key (iterAcquire nows m (markExhausted st c)) (nows m)).1
        ≠ some c) := by
  have hmark : dgetD (markExhausted st c).key_usage c 0 = 1500 := by
    show dgetD (dinsert st.key_usage c 1500) c 0 = 1500
    rw [dgetD_dinsert, if_pos rfl]
  have hsaved : savedUsage
      (save_usage_state (markExhausted st c).key_usage (markExhausted st c).last_reset) c
      = some (Json.num 1500) := by
    show savedUsage (save_usage_state (dinsert st.key_usage c 1500) st.last_reset) c = _
    simp [savedUsage, save_usage_state, dlookup_cons, dlookup_map, dlookup_dinsert]
  have hinv : ∀ m, QUOTA ≤ dgetD (iterAcquire nows m (markExhausted st c)).key_usage c 0 ∧
      dlookup (iterAcquire nows m (markExhausted st c)).last_reset c = some tc := by
    intro m
    induction m with
    | zero =>
      constructor
      · show QUOTA ≤ dgetD (markExhausted st c).key_usage c 0
        rw [hmark]
        norm_num [QUOTA]
      · exact hl
    | succ m ih =>
      have havoid := acquireGo_avoid (iterAcquire nows m (markExhausted st c)).api_keys
        (nows m) c tc (hwin m) (iterAcquire nows m (markExhausted st c)).api_keys.length
        (iterAcquire nows m (markExhausted st c)).key_usage
        (iterAcquire nows m (markExhausted st c)).last_reset
        (iterAcquire nows m (markExhausted st c)).current_key_index ih.2 ih.1
      exact ⟨havoid.2.2, havoid.2.1⟩
  refine ⟨hmark, hsaved, ?_⟩
  intro m
  have havoid := acquireGo_avoid (iterAcquire nows m (markExhausted st c)).api_keys
    (nows m) c tc (hwin m) (iterAcquire nows m (markExhausted st c)).api_keys.length
    (iterAcquire nows m (markExhausted st c)).key_usage
    (iterAcquire nows m (markExhausted st c)).last_reset
    (iterAcquire nows m (markExhausted st c)).current_key_index (hinv m).2 (hinv m).1
  exact ⟨(hinv m).1, (hinv m).2, havoid.1⟩

theorem claim3_witness :
    dgetD (markExhausted ⟨["a", "b"], [("a", 3)], [("a", dtJan1)], 0⟩ "a").key_usage "a" 0
      = 1500 ∧
    (get_next_available_key
      (markExhausted ⟨["a", "b"], [("a", 3)], [("a", dtJan1)], 0⟩ "a") dtJan1).1
      ≠ some "a" := by
  have h := claim3_markExhausted_excludes ⟨["a", "b"], [("a", 3)], [("a", dtJan1)], 0⟩ "a"
    dtJan1 (by decide) (fun _ => dtJan1)
    (fun i => by
      show dtSub dtJan1 dtJan1 ≤ h24micros
      rw [dtSub_self]
      exact h24micros_nonneg)
  exact ⟨h.1, (h.2.2 0).2.2⟩

/-- Claim C4: when `acquire()` scans a credential it first performs the
lazy window check: if the stored window start is more than 24 hours
before `now`, `callsUsed` is reset to 0 and the window start advanced to
`now` before the quota comparison (so the scanned credential is returned
with a fresh count of 1 even if it was far over quota); a window exactly
24 hours old or younger is left untouched. -/
theorem claim4_window_reset
    (st : KeyManager) (now t : PyDateTime) (k : String)
    (hk : k = st.api_keys.getD st.current_key_index "")
    (hl : dlookup st.last_reset k = some t)
    (hN : 0 < st.api_keys.length) :
    (dtSub now t > h24micros →
      dgetD (resetPhase st.key_usage st.last_reset k now).1 k 0 = 0 ∧
      dlookup (resetPhase st.key_usage st.last_reset k now).2 k = some now ∧
      (get_next_available_key st now).1 = some k ∧
      dgetD (get_next_available_key st now).2.key_usage k 0 = 1) ∧
    (dtSub now t ≤ h24micros →
      resetPhase st.key_usage st.last_reset k now = (st.key_usage, st.last_reset)) := by
  constructor
  · intro hstale
    have hRP : resetPhase st.key_usage st.last_reset k now
        = (dinsert st.key_usage k 0, dinsert st.last_reset k now) := by
      unfold resetPhase
      rw [dmatGet_present st.last_reset k now t hl]
      simp only
      rw [if_pos hstale]
    refine ⟨by rw [hRP]; exact (by rw [dgetD_dinsert, if_pos rfl] :
        dgetD (dinsert st.key_usage k 0) k 0 = 0), ?_, ?_, ?_⟩
    · rw [hRP]
      show dlookup (dinsert st.last_reset k now) k = some now
      rw [dlookup_dinsert, if_pos rfl]
    · obtain ⟨f, hf⟩ : ∃ f, st.api_keys.length = f + 1 :=
        ⟨st.api_keys.length - 1, by omega⟩
      have hb : (get_next_available_key st now).1
          = (acquireGo st.api_keys now st.api_keys.length st.key_usage st.last_reset
              st.current_key_index).result := rfl
      rw [hf, acquireGo_step, ← hk, hRP] at hb
      have hmat : dmatGet (dinsert st.key_usage k 0) k 0 = (0, dinsert st.key_usage k 0) := by
        apply dmatGet_present
        rw [dlookup_dinsert, if_pos rfl]
      rw [hmat] at hb
      simp only at hb
      rw [if_pos (by norm_num [QUOTA])] at hb
      rw [hb]
    · obtain ⟨f, hf⟩ : ∃ f, st.api_keys.length = f + 1 :=
        ⟨st.api_keys.length - 1, by omega⟩
      have hb : (get_next_available_key st now).2.key_usage
          = (acquireGo st.api_keys now st.api_keys.length st.key_usage st.last_reset
              st.current_key_index).usage := rfl
      rw [hf, acquireGo_step, ← hk, hRP] at hb
      have hmat : dmatGet (dinsert st.key_usage k 0) k 0 = (0, dinsert st.key_usage k 0) := by
        apply dmatGet_present
        rw [dlookup_dinsert, if_pos rfl]
      rw [hmat] at hb
      simp only at hb
      rw [if_pos (by norm_num [QUOTA])] at hb
      rw [hb]
      show dgetD (dinsert (dinsert st.key_usage k 0) k (0 + 1)) k 0 = 1
      rw [dgetD_dinsert, if_pos rfl]
  · intro hfresh
    unfold resetPhase
    rw [dmatGet_present st.last_reset k now t hl]
    simp only
    rw [if_neg (by omega)]

theorem claim4_witness :
    (get_next_available_key ⟨["a"], [("a", 2000)], [("a", dtJan1)], 0⟩ dtJan3).1 = some "a" ∧
    dgetD (get_next_available_key ⟨["a"], [("a", 2000)], [("a", dtJan1)], 0⟩
      dtJan3).2.key_usage "a" 0 = 1 := by
  have h := claim4_window_reset ⟨["a"], [("a", 2000)], [("a", dtJan1)], 0⟩ dtJan3 dtJan1 "a"
    (by decide) (by decide) (by decide)
  have h2 := h.1 (by decide)
  exact ⟨h2.2.2.1, h2.2.2.2⟩

/-! ### Ledger round-trip lemmas -/

theorem decodeNums_map (l : List (String × Nat)) :
    decodeNums (l.map (fun p => (p.1, Json.num p.2))) = some l := by
  induction l with
  | nil => rfl
  | cons p rest ih =>
    obtain ⟨k, v⟩ := p
    simp [decodeNums, ih]

theorem decodeTimes_map (l : List (String × PyDateTime)) (hv : ∀ p ∈ l, validDT p.2) :
    decodeTimes (l.map (fun p => (p.1, Json.str (isoformat p.2)))) = some l := by
  induction l with
  | nil => rfl
  | cons p rest ih =>
    obtain ⟨k, t⟩ := p
    have h1 : fromisoformat (isoformat t) = some t :=
      fromisoformat_isoformat t (hv (k, t) (List.mem_cons_self _ _))
    have h2 := ih (fun q hq => hv q (List.mem_cons_of_mem _ hq))
    simp [decodeTimes, h1, h2]

/-- Claim C7: saving the ledger and loading it back reproduces exactly
the same `callsUsed` and `windowStart` (stored as an ISO-8601 string)
for every credential, whatever the ledger contents are (in particular
after any sequence of acquisitions and exhaustion markings). -/
theorem claim7_save_load_roundtrip
    (usage : List (String × Nat)) (resets : List (String × PyDateTime))
    (u0 : List (String × Nat)) (r0 : List (String × PyDateTime))
    (hv : ∀ p ∈ resets, validDT p.2) :
    load_usage_state u0 r0 (some (save_usage_state usage resets)) = (usage, resets) := by
  have h1 := decodeNums_map usage
  have h2 := decodeTimes_map resets hv
  simp [load_usage_state, save_usage_state, dlookup_cons, h1, h2]

theorem claim7_witness :
    load_usage_state [] []
      (some (save_usage_state [("a", 3), ("b", 1500)] [("a", dtJan1), ("b", dtJan3)]))
      = ([("a", 3), ("b", 1500)], [("a", dtJan1), ("b", dtJan3)]) := by
  exact claim7_save_load_roundtrip [("a", 3), ("b", 1500)] [("a", dtJan1), ("b", dtJan3)]
    [] [] (by decide)

/-- Claim C5 counterexample: a response whose stripped text splits into
four `===`-delimited segments is not treated as a parse failure — the
code succeeds, keeping the first three segments and silently dropping
the rest. -/
theorem claim5_counterexample :
    (strippedFields "a@b.com === Jane === Hello === extra").length = 4 ∧
    parseResponse "a@b.com === Jane === Hello === extra"
      = some ⟨"a@b.com", "Jane", "Hello"⟩ := by
  decide

/-- Claim C5 (amended): after stripping code-fence markup and
whitespace, the response is split on the literal `===`; three or more
segments yield a success built from the first three segments, each
trimmed (so exactly three segments give `{email, name, message}` as the
spec's example shows), while fewer than three segments are a parse
failure; more than three segments are not a failure. -/
theorem claim5_parse_segments (response : String) :
    (∀ f0 f1 f2 rest, strippedFields response = f0 :: f1 :: f2 :: rest →
      parseResponse response = some ⟨pyStrip f0, pyStrip f1, pyStrip f2⟩) ∧
    ((strippedFields response).length < 3 → parseResponse response = none) ∧
    parseResponse "a@b.com === Jane === Hello Jane..."
      = some ⟨"a@b.com", "Jane", "Hello Jane..."⟩ ∧
    parseResponse "a === b" = none := by
  refine ⟨?_, ?_, by decide, by decide⟩
  · intro f0 f1 f2 rest h
    unfold parseResponse
    rw [h]
  · intro hlen
    unfold parseResponse
    rcases hsf : strippedFields response with _ | ⟨f0, _ | ⟨f1, _ | ⟨f2, rest⟩⟩⟩
    · rfl
    · rfl
    · rfl
    · rw [hsf] at hlen
      simp at hlen
      omega

theorem claim5_witness : parseResponse "onlyonesegment" = none :=
  (claim5_parse_segments "onlyonesegment").2.1 (by decide)

/-- Claim C2 counterexample: at attempt 0 (attempts remaining, since
maxAttempts = 3) the call fails with a transient, non-quota error while
attempt 1 would have succeeded, yet the controller returns NONE after a
single acquisition — it does not proceed to the next attempt. -/
theorem claim2_counterexample :
    (generate_personalized_email
      (fun a => if a = 0 then CallOutcome.err "connection reset by peer"
        else CallOutcome.ok "a === b === c")
      (fun _ => dtJan1) ⟨["k"], [], [], 0⟩).1 = none ∧
    dgetD (generate_personalized_email
      (fun a => if a = 0 then CallOutcome.err "connection reset by peer"
        else CallOutcome.ok "a === b === c")
      (fun _ => dtJan1) ⟨["k"], [], [], 0⟩).2.key_usage "k" 0 = 1 ∧
    isQuotaMsg "connection reset by peer" = false ∧
    parseResponse "a === b === c" = some ⟨"a", "b", "c"⟩ := by
  decide

/-- Claim C2 (amended): when an attempt's call raises an error that is
not quota-flavoured (no "429" and no "quota" in the lowered message),
the retry controller returns NONE immediately with the state left by
that attempt's acquisition — at every attempt, not only the last; only
quota-flavoured errors lead to a further attempt. -/
theorem claim2_transient_no_retry
    (oracle : Nat → CallOutcome) (nows : Nat → PyDateTime) (st st1 : KeyManager)
    (fuel attempt : Nat) (k msg : String)
    (hacq : get_next_available_key st (nows attempt) = (some k, st1))
    (hkne : ¬k = "")
    (horacle : oracle attempt = CallOutcome.err msg)
    (hq : isQuotaMsg msg = false) :
    genGo oracle nows (fuel + 1) attempt st = (none, st1) := by
  simp [genGo, hacq, hkne, horacle, hq]

theorem claim2_witness :
    genGo (fun _ => CallOutcome.err "boom") (fun _ => dtJan1) 3 0 ⟨["k"], [], [], 0⟩
      = (none, ⟨["k"], [("k", 1)], [("k", dtJan1)], 0⟩) := by
  exact claim2_transient_no_retry (fun _ => CallOutcome.err "boom") (fun _ => dtJan1)
    ⟨["k"], [], [], 0⟩ ⟨["k"], [("k", 1)], [("k", dtJan1)], 0⟩ 2 0 "k" "boom"
    (by decide) (by decide) rfl (by decide)

/-! ### Batch dispatcher lemmas -/

theorem chunksGo_join {α : Type} (bs : Nat) (hbs : 0 < bs) :
    ∀ (fuel : Nat) (l : List α), l.length ≤ fuel → (chunksGo bs fuel l).flatten = l := by
  intro fuel
  induction fuel with
  | zero =>
    intro l hl
    cases l with
    | nil => rfl
    | cons c cs => simp at hl
  | succ fuel ih =>
    intro l hl
    cases l with
    | nil => rfl
    | cons c cs =>
      show (List.take bs (c :: cs) :: chunksGo bs fuel (List.drop bs (c :: cs))).flatten = c :: cs
      have hlen : (List.drop bs (c :: cs)).length ≤ fuel := by
        rw [List.length_drop]
        simp only [List.length_cons]
        simp only [List.length_cons] at hl
        omega
      rw [List.flatten_cons, ih _ hlen, List.take_append_drop]

theorem chunksGo_ne_nil {α : Type} (bs : Nat) :
    ∀ (fuel : Nat) (l : List α), l ≠ [] → l.length ≤ fuel → chunksGo bs fuel l ≠ [] := by
  intro fuel
  induction fuel with
  | zero =>
    intro l hne hl
    cases l with
    | nil => exact absurd rfl hne
    | cons c cs => simp at hl
  | succ fuel _
  =>
    intro l hne hl
    cases l with
    | nil => exact absurd rfl hne
    | cons c cs =>
      show List.take bs (c :: cs) :: chunksGo bs fuel (List.drop bs (c :: cs)) ≠ []
      simp

theorem chunksGo_length_le {α : Type} (bs : Nat) (hbs : 0 < bs) :
    ∀ (fuel : Nat) (l : List α) (c : List α), l.length ≤ fuel →
      c ∈ chunksGo bs fuel l → c.length ≤ bs := by
  intro fuel
  induction fuel with
  | zero =>
    intro l c hl hc
    cases l with
    | nil => simp [chunksGo] at hc
    | cons a cs => simp at hl
  | succ fuel ih =>
    intro l c hl hc
    cases l with
    | nil => simp [chunksGo] at hc
    | cons a cs =>
      have hc2 : c ∈ List.take bs (a :: cs) :: chunksGo bs fuel (List.drop bs (a :: cs)) := hc
      rcases List.mem_cons.mp hc2 with h1 | h1
      · rw [h1, List.length_take]
        omega
      · have hlen : (List.drop bs (a :: cs)).length ≤ fuel := by
          rw [List.length_drop]
          simp only [List.length_cons] at hl ⊢
          omega
        exact ih _ c hlen h1

theorem chunksGo_dropLast_length {α : Type} (bs : Nat) (hbs : 0 < bs) :
    ∀ (fuel : Nat) (l : List α) (c : List α), l.length ≤ fuel →
      c ∈ (chunksGo bs fuel l).dropLast → c.length = bs := by
  intro fuel
  induction fuel with
  | zero =>
    intro l c hl hc
    cases l with
    | nil => simp [chunksGo] at hc
    | cons a cs => simp at hl
  | succ fuel ih =>
    intro l c hl hc
    cases l with
    | nil => simp [chunksGo] at hc
    | cons a cs =>
      have hc2 : c ∈ (List.take bs (a :: cs) :: chunksGo bs fuel (List.drop bs (a :: cs))).dropLast :=
        hc
      have hlen : (List.drop bs (a :: cs)).length ≤ fuel := by
        rw [List.length_drop]
        simp only [List.length_cons] at hl ⊢
        omega
      cases hrest : chunksGo bs fuel (List.drop bs (a :: cs)) with
      | nil =>
        rw [hrest] at hc2
        simp at hc2
      | cons r0 rs =>
        rw [hrest] at hc2
        have hdl : (List.take bs (a :: cs) :: r0 :: rs).dropLast
            = List.take bs (a :: cs) :: (r0 :: rs).dropLast := rfl
        rw [hdl] at hc2
        rcases List.mem_cons.mp hc2 with h1 | h1
        · have hdrop_ne : List.drop bs (a :: cs) ≠ [] := by
            intro hdn
            rw [hdn] at hrest
            simp [chunksGo] at hrest
          have hblen : bs < (a :: cs).length := by
            by_contra hcon
            push_neg at hcon
            exact hdrop_ne (List.drop_eq_nil_of_le hcon)
          rw [h1, List.length_take]
          omega
        · rw [← hrest] at h1
          exact ih _ c hlen h1

theorem pychunks_join {α : Type} (bs : Nat) (hbs : 0 < bs) (l : List α) :
    (pychunks bs l).flatten = l :=
  chunksGo_join bs hbs l.length l (le_refl _)

theorem process_batch_cons (oracle : Nat → Nat → CallOutcome) (nows : Nat → Nat → PyDateTime)
    (row : Row) (rest : List Row) (j : Nat) (km : KeyManager) :
    process_batch oracle nows (row :: rest) j km =
      match (generate_personalized_email (oracle j) (nows j) km).1 with
      | some r =>
        (r :: (process_batch oracle nows rest (j + 1)
            (generate_personalized_email (oracle j) (nows j) km).2).1,
          (process_batch oracle nows rest (j + 1)
            (generate_personalized_email (oracle j) (nows j) km).2).2)
      | none => process_batch oracle nows rest (j + 1)
          (generate_personalized_email (oracle j) (nows j) km).2 := rfl

theorem process_batch_le (oracle : Nat → Nat → CallOutcome) (nows : Nat → Nat → PyDateTime) :
    ∀ (batch : List Row) (j : Nat) (km : KeyManager),
    (process_batch oracle nows batch j km).1.length ≤ batch.length := by
  intro batch
  induction batch with
  | nil =>
    intro j km
    show ([] : List GenRes).length ≤ 0
    simp
  | cons row rest ih =>
    intro j km
    rw [process_batch_cons]
    cases hp : (generate_personalized_email (oracle j) (nows j) km).1 with
    | some r =>
      have := ih (j + 1) (generate_personalized_email (oracle j) (nows j) km).2
      simp only [List.length_cons]
      omega
    | none =>
      have := ih (j + 1) (generate_personalized_email (oracle j) (nows j) km).2
      simp only [List.length_cons]
      omega

theorem runChunks_cons (oracle : Nat → Nat → CallOutcome) (nows : Nat → Nat → PyDateTime)
    (sinkFail : Nat → Bool) (chunk : List Row) (rest : List (List Row)) (s : BatchSt) :
    runChunks oracle nows sinkFail (chunk :: rest) s =
      if (process_batch oracle nows chunk s.recIdx s.km).1.isEmpty then
        runChunks oracle nows sinkFail rest
          { s with processed := s.processed + chunk.length,
                   km := (process_batch oracle nows chunk s.recIdx s.km).2.1,
                   recIdx := (process_batch oracle nows chunk s.recIdx s.km).2.2 }
      else if sinkFail s.sinkCalls then Except.error "sink write failed"
      else runChunks oracle nows sinkFail rest
        { processed := s.processed + chunk.length,
          successful := s.successful + (process_batch oracle nows chunk s.recIdx s.km).1.length,
          file := save_results_async (process_batch oracle nows chunk s.recIdx s.km).1 s.file,
          sinkCalls := s.sinkCalls + 1,
          km := (process_batch oracle nows chunk s.recIdx s.km).2.1,
          recIdx := (process_batch oracle nows chunk s.recIdx s.km).2.2 } := rfl

theorem runChunks_ok (oracle : Nat → Nat → CallOutcome) (nows : Nat → Nat → PyDateTime)
    (sinkFail : Nat → Bool) (hs : ∀ i, sinkFail i = false) :
    ∀ (chunksL : List (List Row)) (s : BatchSt),
    ∃ s1, runChunks oracle nows sinkFail chunksL s = Except.ok s1 ∧
      s1.processed = s.processed + (chunksL.map List.length).sum ∧
      s1.successful ≤ s.successful + (chunksL.map List.length).sum := by
  intro chunksL
  induction chunksL with
  | nil =>
    intro s
    exact ⟨s, rfl, by simp, by simp⟩
  | cons chunk rest ih =>
    intro s
    rw [runChunks_cons]
    by_cases hemp : (process_batch oracle nows chunk s.recIdx s.km).1.isEmpty
    · rw [if_pos hemp]
      obtain ⟨s1, h1, h2, h3⟩ := ih
        { s with processed := s.processed + chunk.length,
                 km := (process_batch oracle nows chunk s.recIdx s.km).2.1,
                 recIdx := (process_batch oracle nows chunk s.recIdx s.km).2.2 }
      refine ⟨s1, h1, ?_, ?_⟩
      · rw [h2]
        simp only [List.map_cons, List.sum_cons]
        omega
      · refine le_trans h3 ?_
        simp only [List.map_cons, List.sum_cons]
        omega
    · rw [if_neg hemp, hs s.sinkCalls]
      rw [if_neg (by simp)]
      obtain ⟨s1, h1, h2, h3⟩ := ih
        { processed := s.processed + chunk.length,
          successful := s.successful + (process_batch oracle nows chunk s.recIdx s.km).1.length,
          file := save_results_async (process_batch oracle nows chunk s.recIdx s.km).1 s.file,
          sinkCalls := s.sinkCalls + 1,
          km := (process_batch oracle nows chunk s.recIdx s.km).2.1,
          recIdx := (process_batch oracle nows chunk s.recIdx s.km).2.2 }
      refine ⟨s1, h1, ?_, ?_⟩
      · rw [h2]
        simp only [List.map_cons, List.sum_cons]
        omega
      · refine le_trans h3 ?_
        simp only [List.map_cons, List.sum_cons]
        have := process_batch_le oracle nows chunk s.recIdx s.km
        omega

/-- Claim C6 counterexample: a run in which the sink write for the first
chunk raises makes `process_contacts` propagate the failure past its
boundary instead of counting zero successes and continuing. -/
theorem claim6_counterexample :
    process_contacts (fun _ _ => CallOutcome.ok "a === b === c") (fun _ _ => dtJan1)
      (fun _ => true) "k" none [([] : Row)] 5 = Except.error "sink write failed" := by
  rfl

/-- Claim C6 (amended): the retry controller and the per-record batch
loop are total — for every input the dispatcher terminates and returns
`BatchOutcome{attempted = |records|, succeeded ≤ attempted}` — provided
every sink write succeeds; a failing sink write, however, is not caught
by `process_contacts` and propagates out as an error. -/
theorem claim6_no_sink_failure_total
    (oracle : Nat → Nat → CallOutcome) (nows : Nat → Nat → PyDateTime)
    (sinkFail : Nat → Bool) (hs : ∀ i, sinkFail i = false)
    (envKeys : String) (stored : Option Json) (contacts : List Row)
    (batch_size : Nat) (hbs : 0 < batch_size) :
    ∃ succeeded, succeeded ≤ contacts.length ∧
      process_contacts oracle nows sinkFail envKeys stored contacts batch_size
        = Except.ok (contacts.length, succeeded) := by
  obtain ⟨s1, h1, h2, h3⟩ := runChunks_ok oracle nows sinkFail hs
    (pychunks batch_size contacts) ⟨0, 0, "", 0, KeyManager.init envKeys stored, 0⟩
  have hsum : ((pychunks batch_size contacts).map List.length).sum = contacts.length := by
    rw [← List.length_flatten, pychunks_join batch_size hbs]
  refine ⟨s1.successful, ?_, ?_⟩
  · have h4 : (⟨0, 0, "", 0, KeyManager.init envKeys stored, 0⟩ : BatchSt).successful = 0 := rfl
    rw [h4] at h3
    omega
  · unfold process_contacts
    rw [h1]
    have h5 : (⟨0, 0, "", 0, KeyManager.init envKeys stored, 0⟩ : BatchSt).processed = 0 := rfl
    rw [h5, hsum] at h2
    simp only [Except.map]
    rw [h2]
    simp

theorem claim6_witness :
    ∃ s, s ≤ 2 ∧
      process_contacts (fun _ _ => CallOutcome.ok "a === b === c") (fun _ _ => dtJan1)
        (fun _ => false) "k" none [[], []] 5 = Except.ok (2, s) :=
  claim6_no_sink_failure_total (fun _ _ => CallOutcome.ok "a === b === c")
    (fun _ _ => dtJan1) (fun _ => false) (fun _ => rfl) "k" none [[], []] 5 (by omega)

/-- Claim C9: the dispatcher partitions the input into contiguous
in-order chunks of `batchSize` with only the last chunk possibly
shorter; concretely, 7 records at `batchSize = 5` with one fresh
credential (capacity 1450) give two chunks of sizes 5 and 2, two sink
calls (one per non-empty chunk), and `BatchOutcome{attempted = 7,
succeeded = 7 ≤ 7}`. -/
theorem claim9_batching {α : Type} (bs : Nat) (hbs : 0 < bs) (l : List α) :
    ((pychunks bs l).flatten = l ∧
      (∀ c ∈ pychunks bs l, c.length ≤ bs) ∧
      (∀ c ∈ (pychunks bs l).dropLast, c.length = bs)) ∧
    ((pychunks 5 (List.replicate 7 ([] : Row))).map List.length = [5, 2] ∧
      (process_contacts_state (fun _ _ => CallOutcome.ok "a@b.com === Jane === Hello")
        (fun _ _ => dtJan1) (fun _ => false) "k" none (List.replicate 7 ([] : Row)) 5).map
        (fun s => (s.processed, s.successful, s.sinkCalls)) = Except.ok (7, 7, 2)) := by
  refine ⟨⟨pychunks_join bs hbs l, ?_, ?_⟩, by decide, by rfl⟩
  · intro c hc
    exact chunksGo_length_le bs hbs l.length l c (le_refl _) hc
  · intro c hc
    exact chunksGo_dropLast_length bs hbs l.length l c (le_refl _) hc

theorem claim9_witness :
    (pychunks 5 (List.replicate 7 ([] : Row))).flatten = List.replicate 7 [] :=
  (claim9_batching 5 (by omega) (List.replicate 7 ([] : Row))).1.1

/-! ### Constructor and sink lemmas -/

theorem splitGo_ne_nil (sep : List Char) :
    ∀ (fuel : Nat) (cs acc : List Char), splitGo sep fuel cs acc ≠ [] := by
  intro fuel
  induction fuel with
  | zero =>
    intro cs acc
    cases cs <;> simp [splitGo]
  | succ fuel ih =>
    intro cs acc
    cases cs with
    | nil => simp [splitGo]
    | cons c cs2 =>
      show (match dropPrefixQ sep (c :: cs2) with
        | some rest => acc.reverse :: splitGo sep fuel rest []
        | none => splitGo sep fuel cs2 (c :: acc)) ≠ []
      cases hdp : dropPrefixQ sep (c :: cs2) with
      | some rest => simp
      | none =>
        simp only
        exact ih cs2 (c :: acc)

theorem pySplit_ne_nil (s sep : String) : pySplit s sep ≠ [] := by
  unfold pySplit
  intro h
  rw [List.map_eq_nil_iff] at h
  exact splitGo_ne_nil sep.data s.data.length s.data [] h

/-- Claim C8 counterexample: with no credentials configured (the
environment variable unset, read as `''`), construction does not fail —
it succeeds with a pool holding one empty-string credential. -/
theorem claim8_counterexample :
    (KeyManager.init "" none).api_keys = [""] ∧
    (KeyManager.init "" none).api_keys.length = 1 := by
  decide

/-- Claim C8 (amended): construction never fails: the pool is
`envKeys.split(',')`, which is never the empty list (so N = 0 cannot
occur), and an empty configuration yields the unusable one-element pool
`['']` whose falsy credential makes every generation attempt return
NONE; there is no construction-time `NoCredentialsConfigured` error. -/
theorem claim8_construction_total (envKeys : String) (stored : Option Json)
    (oracle : Nat → CallOutcome) :
    (KeyManager.init envKeys stored).api_keys = pySplit envKeys "," ∧
    0 < (KeyManager.init envKeys stored).api_keys.length ∧
    (KeyManager.init "" none).api_keys = [""] ∧
    (generate_personalized_email oracle (fun _ => dtJan1) (KeyManager.init "" none)).1
      = none := by
  refine ⟨rfl, ?_, rfl, ?_⟩
  · show 0 < (pySplit envKeys ",").length
    cases hsp : pySplit envKeys "," with
    | nil => exact absurd hsp (pySplit_ne_nil envKeys ",")
    | cons a rest => simp
  · have hacq : get_next_available_key (KeyManager.init "" none) dtJan1
        = (some "", ⟨[""], [("", 1)], [("", dtJan1)], 0⟩) := by decide
    show (genGo oracle (fun _ => dtJan1) (2 + 1) 0 (KeyManager.init "" none)).1 = none
    rw [genGo, hacq]
    simp

/-- Claim C10: reading a produced row back with a standard CSV parser. -/
theorem parseQF_esc (s : List Char) : ∀ (acc : List Char) (d : Char) (ds : List Char),
    d ≠ '"' →
    parseQF acc (csvEsc s ++ '"' :: d :: ds) = some (acc ++ s, d :: ds) := by
  induction s with
  | nil =>
    intro acc d ds hd
    show parseQF acc ('"' :: d :: ds) = some (acc ++ [], d :: ds)
    rw [parseQF, if_pos rfl]
    show (if d = '"' then parseQF (acc ++ ['"']) ds else some (acc, d :: ds))
      = some (acc ++ [], d :: ds)
    rw [if_neg hd, List.append_nil]
  | cons c s ih =>
    intro acc d ds hd
    by_cases hc : c = '"'
    · subst hc
      show parseQF acc ('"' :: '"' :: (csvEsc s ++ '"' :: d :: ds))
        = some (acc ++ '"' :: s, d :: ds)
      rw [parseQF, if_pos rfl]
      show (if '"' = '"' then parseQF (acc ++ ['"']) (csvEsc s ++ '"' :: d :: ds)
        else some (acc, '"' :: (csvEsc s ++ '"' :: d :: ds))) = some (acc ++ '"' :: s, d :: ds)
      rw [if_pos rfl, ih (acc ++ ['"']) d ds hd]
      simp
    · have hesc : csvEsc (c :: s) = c :: csvEsc s := by
        rw [csvEsc, if_neg hc]
      rw [hesc]
      show parseQF acc (c :: (csvEsc s ++ '"' :: d :: ds)) = some (acc ++ c :: s, d :: ds)
      rw [parseQF.eq_def]
      simp only []
      rw [if_neg hc, ih (acc ++ [c]) d ds hd]
      simp

/-- Claim C10: every row the sink appends wraps each of the three fields
in double quotes with embedded double quotes doubled, so a standard CSV
parse of the row recovers exactly the original field values — even when
they contain commas, quotes, or newlines. -/
theorem claim10_sink_roundtrip (r : GenRes) :
    parseRecord (csvLine r).data = some (r.email, r.name, r.personalized_email) := by
  have hca : ∀ s t : String, (s ++ t).data = s.data ++ t.data := fun s t => rfl
  have hcomma : ("," : String).data = [','] := rfl
  have hnl : ("\n" : String).data = ['\n'] := rfl
  have hcf : ∀ s : String, (csvField s).data = '"' :: (csvEsc s.data ++ ['"']) := fun _ => rfl
  have hdata : (csvLine r).data
      = '"' :: (csvEsc r.email.data ++ '"' :: ',' :: '"' :: (csvEsc r.name.data ++ '"' :: ',' ::
        '"' :: (csvEsc r.personalized_email.data ++ '"' :: '\n' :: []))) := by
    show (csvField r.email ++ "," ++ csvField r.name ++ "," ++ csvField r.personalized_email
      ++ "\n").data = _
    simp [hca, hcomma, hnl, hcf]
  have hq1 := parseQF_esc r.email.data [] ','
    ('"' :: (csvEsc r.name.data ++ '"' :: ',' :: '"' ::
      (csvEsc r.personalized_email.data ++ '"' :: '\n' :: []))) (by decide)
  have hq2 := parseQF_esc r.name.data [] ','
    ('"' :: (csvEsc r.personalized_email.data ++ '"' :: '\n' :: [])) (by decide)
  have hq3 := parseQF_esc r.personalized_email.data [] '\n' [] (by decide)
  have hmkE : ∀ s : String, String.mk s.data = s := fun _ => rfl
  rw [hdata]
  simp only [parseRecord, hq1, hq2, hq3, List.nil_append, hmkE]
